import Mathlib

/-!
# Verification of neo4j-python-migrations (core)

A shallow embedding of the core of the `neo4j-python-migrations` repository:
* `migration.py` — version comparison, Cypher script parsing and checksums;
* `dao.py` — the ledger append/remove operations (modelled at the level of
  the counter check and transaction commit/abort);
* `executor.py` — the `migrate` / `rollback` orchestration, modelled as a
  trace-producing function over an abstract store behaviour.

Python strings are modelled by Lean `String`; Python `str.split`,
`str.strip`, the `in` operator and `bytes` encoding are re-implemented
below by structural recursion so that all definitions evaluate by `decide`.
Python machine behaviour that matters (CRC32 arithmetic) is done on `Nat`
with explicit masking to 32 bits.
-/

/-- Python `str.isspace` for the ASCII whitespace characters that
`str.strip()` removes: space, tab, newline, carriage return, vertical tab,
form feed. -/
def isPySpace (c : Char) : Bool :=
  c == ' ' || c == '\t' || c == '\n' || c == '\r' || c == '\x0b' || c == '\x0c'

/-- Python `str.strip()`: remove leading and trailing whitespace. -/
def pyStrip (s : String) : String :=
  ⟨((s.data.dropWhile isPySpace).reverse.dropWhile isPySpace).reverse⟩

/-- Worker for `pySplit`: `fuel`-indexed structural recursion over the
character list; `acc` holds the current (reversed) segment. -/
def pySplitGo (sep : List Char) : Nat → List Char → List Char → List (List Char)
  | 0, acc, _ => [acc.reverse]
  | _ + 1, acc, [] => [acc.reverse]
  | fuel + 1, acc, c :: rest =>
    if sep ≠ [] ∧ sep.isPrefixOf (c :: rest) then
      acc.reverse :: pySplitGo sep fuel [] ((c :: rest).drop sep.length)
    else
      pySplitGo sep fuel (c :: acc) rest

/-- Python `s.split(sep)` for a non-empty separator `sep`: split on every
occurrence, keeping empty segments. -/
def pySplit (s sep : String) : List String :=
  (pySplitGo sep.data (s.data.length + 1) [] s.data).map (fun l => ⟨l⟩)

/-- Is `sub` an infix of `l`?  Models Python `sub in s` on characters. -/
def listInfix (sub : List Char) : List Char → Bool
  | [] => sub.isPrefixOf []
  | c :: rest => sub.isPrefixOf (c :: rest) || listInfix sub rest

/-- Python `sub in s` (substring containment). -/
def pyContains (s sub : String) : Bool :=
  listInfix sub.data s.data

/-- Digits-to-number conversion: Python `int(component)` restricted to
strings of decimal digits (the only inputs the claims use). -/
def digitsToNat (l : List Char) : Nat :=
  l.foldl (fun acc c => acc * 10 + (c.toNat - 48)) 0

/-- UTF-8 encoding of one character, as byte values — Python
`str.encode()` per character. -/
def utf8Bytes (c : Char) : List Nat :=
  let n := c.toNat
  if n < 0x80 then [n]
  else if n < 0x800 then
    [0xC0 ||| (n >>> 6), 0x80 ||| (n &&& 0x3F)]
  else if n < 0x10000 then
    [0xE0 ||| (n >>> 12), 0x80 ||| ((n >>> 6) &&& 0x3F), 0x80 ||| (n &&& 0x3F)]
  else
    [0xF0 ||| (n >>> 18), 0x80 ||| ((n >>> 12) &&& 0x3F),
     0x80 ||| ((n >>> 6) &&& 0x3F), 0x80 ||| (n &&& 0x3F)]

/-- Python `str.encode()`: UTF-8 bytes of a string. -/
def strBytes (s : String) : List Nat :=
  s.data.flatMap utf8Bytes

/-- One bit-step of the reflected CRC-32 (polynomial `0xEDB88320`). -/
def crc32Round (c : Nat) : Nat :=
  if c % 2 == 1 then Nat.xor (c / 2) 0xEDB88320 else c / 2

/-- Fold one byte into the CRC-32 register. -/
def crc32Byte (c b : Nat) : Nat :=
  crc32Round (crc32Round (crc32Round (crc32Round
    (crc32Round (crc32Round (crc32Round (crc32Round (Nat.xor c b))))))))

/-- `binascii.crc32(bytes, value)`: pre/post-conditioning with
`0xFFFFFFFF` around a byte-wise fold. -/
def crc32 (bytes : List Nat) (value : Nat) : Nat :=
  Nat.xor (bytes.foldl crc32Byte (Nat.xor value 0xFFFFFFFF)) 0xFFFFFFFF

/-! ## Version comparison (`Migration.__lt__`, migration.py lines 74-78)

`Migration.__lt__` compares `packaging.version.Version(self.version)`
objects.  For the plain numeric dotted versions this project uses, the
`packaging` comparison key (PEP 440) is the tuple of integer release
components with trailing zero components removed, compared as integer
tuples (element-wise, then by length).  The definitions below embed that
dependency for release-only version strings. -/

/-- `packaging` release parsing for plain numeric versions:
split on "." and read each component as an integer. -/
def parseRelease (s : String) : List Nat :=
  (pySplit s ".").map (fun c => digitsToNat c.data)

/-- Remove trailing zero components — the PEP 440 release normalization
used by `packaging.version.Version` when building its comparison key. -/
def stripTrailingZeros : List Nat → List Nat
  | [] => []
  | x :: xs =>
    match stripTrailingZeros xs with
    | [] => if x == 0 then [] else [x]
    | y :: ys => x :: y :: ys

/-- Python tuple/list `<` on integer sequences: element-wise at the first
difference, a strict prefix is smaller. -/
def tupleLt : List Nat → List Nat → Bool
  | [], [] => false
  | [], _ :: _ => true
  | _ :: _, [] => false
  | a :: as_, b :: bs => if a < b then true else if b < a then false else tupleLt as_ bs

/-- `Version(a) < Version(b)` from `packaging`, restricted to plain
numeric release versions: compare the trailing-zero-stripped integer
sequences as tuples.  This is what `Migration.__lt__` evaluates. -/
def versionLt (a b : String) : Bool :=
  tupleLt (stripTrailingZeros (parseRelease a)) (stripTrailingZeros (parseRelease b))

/-- Modelled from the spec (VersionKey, §3): comparison of the raw split
integer sequences, element-wise up to the shorter length and then by
length, with no normalization.  Kept separate from `versionLt` so the
spec's words can be compared against the code's comparison. -/
def specVersionLt (a b : String) : Bool :=
  tupleLt (parseRelease a) (parseRelease b)

/-! ## Cypher script parsing (`CypherMigration`, migration.py) -/

/-- The up-marker literal tested by `_parse_statements`. -/
def upMarker : String := "↑UP-MIGRATION"

/-- The down-marker literal tested by `_parse_statements`. -/
def downMarker : String := "// ↓DOWN-MIGRATION"

/-- The text after the first occurrence of `marker` in `q`
(`none` when the marker does not occur) — the part a regex
`marker\s*(.*?)…` match group ranges over, before trimming. -/
def afterFirst (q marker : String) : Option String :=
  match pySplit q marker with
  | [] => none
  | [_] => none
  | _ :: rest => some (String.intercalate marker rest)

/-- The text of `s` before the first occurrence of `marker`
(all of `s` when the marker does not occur). -/
def beforeFirst (s marker : String) : String :=
  match pySplit s marker with
  | [] => s
  | part :: _ => part

/-- Section splitting in the marker branch of `_parse_statements`:
`content.split(";") if content else []`, then drop the last segment when
its strip is empty. -/
def splitSection (content : String) : List String :=
  if content = "" then []
  else
    let parts := pySplit content ";"
    match parts.getLast? with
    | some lastPart => if pyStrip lastPart = "" then parts.dropLast else parts
    | none => parts

/-- `CypherMigration._parse_statements` (migration.py lines 149-178):
with no markers present, the whole script splits on ";" and the last
segment is dropped; otherwise the up-section (between the markers) and
the down-section (after the down marker) are stripped and section-split. -/
def parse_statements (query : String) : List String × List String :=
  if !pyContains query upMarker && !pyContains query downMarker then
    ((pySplit query ";").dropLast, [])
  else
    let forwardContent :=
      match afterFirst query upMarker with
      | some tailText => pyStrip (beforeFirst tailText downMarker)
      | none => ""
    let downContent :=
      match afterFirst query downMarker with
      | some tailText => pyStrip tailText
      | none => ""
    (splitSection forwardContent, splitSection downContent)

/-- `__attrs_post_init__` normalization: strip every statement and keep
the non-empty ones. -/
def normalizeStatements (raw : List String) : List String :=
  (raw.map pyStrip).filter (fun st => !st.isEmpty)

/-- The `statements` attribute of a `CypherMigration` built from `query`. -/
def cypherStatements (query : String) : List String :=
  normalizeStatements (parse_statements query).1

/-- The `rollback_statements` attribute of a `CypherMigration`. -/
def cypherRollbackStatements (query : String) : List String :=
  normalizeStatements (parse_statements query).2

/-- The checksum accumulation loop of `__attrs_post_init__`:
`checksum = crc32(b, checksum) if checksum else crc32(b)` over the
statement list, starting from `None`. -/
def crcFold (statements : List String) : Option Nat :=
  statements.foldl
    (fun acc st =>
      match acc with
      | some c => if c ≠ 0 then some (crc32 (strBytes st) c) else some (crc32 (strBytes st) 0)
      | none => some (crc32 (strBytes st) 0))
    none

/-- `self.checksum = str(checksum) if checksum else None`: the final
value is dropped when it is `None` or the integer 0. -/
def checksumOf (statements : List String) : Option String :=
  match crcFold statements with
  | some c => if c ≠ 0 then some (toString c) else none
  | none => none

/-- The `checksum` attribute of a `CypherMigration` built from `query`. -/
def cypherChecksum (query : String) : Option String :=
  checksumOf (cypherStatements query)

/-! ## Data model for the executor and the ledger

A local migration is abstracted to what the `Executor` control flow
inspects: its `version` and whether its backward body is defined
(`rollback_statements` non-empty for `CypherMigration`, `rollback_code`
present for `PythonMigration`; when absent, `rollback(tx)` raises
`NotImplementedError`). -/

structure Mig where
  version : String
  hasBackward : Bool
deriving Repr, DecidableEq

/-- `AnalyzingResult` as consumed by `Executor.migrate`: the pending
migrations in order, the invalid findings, and the most recently applied
version (`None` when only the baseline exists). -/
structure AnalyzingResult where
  pendingMigrations : List Mig
  invalidVersions : List String
  latestAppliedVersion : Option String
deriving Repr

/-- Observable effects of one `migrate`/`rollback` call against the
store.  `txBegin`/`txCommit`/`txAbort` delimit the transaction wrapping a
migration body; ledger events are the DAO calls that committed. -/
inductive Ev where
  | createBaseline
  | createConstraints
  | dryRunAppend (v : String)
  | txBegin
  | applyBody (v : String)
  | onApplyCb (v : String)
  | rollbackBody (v : String)
  | onRollbackCb (v : String)
  | appendLedger (v : String)
  | removeLedger (v : String)
  | txCommit
  | txAbort
deriving Repr, DecidableEq

/-- The error that terminates a call.  Every constructor surfaces as a
Python exception: `validation`, `notFound`, `localMissing`,
`noMigrationsToRollback`, `unsupported` and `ledgerIntegrity` are raised
as `ValueError`; the failure constructors re-raise whatever the store,
the body or the callback threw. -/
inductive MigErr where
  | validation
  | notFound (v : String)
  | localMissing (v : String)
  | noMigrationsToRollback
  | unsupported (v : String)
  | ledgerIntegrity
  | dryRunFailure (v : String)
  | bodyFailure (v : String)
  | callbackFailure (v : String)
  | appendFailure (v : String)
  | removeFailure (v : String)
deriving Repr, DecidableEq

/-- Oracle for everything outside the executor's own control flow:
whether each fallible external step raises for a given version. -/
structure Behavior where
  dryRunFails : String → Bool
  applyFails : String → Bool
  onApplyFails : String → Bool
  appendFails : String → Bool
  rollbackBodyFails : String → Bool
  onRollbackFails : String → Bool
  removeFails : String → Bool

/-- The behaviour in which every external step succeeds. -/
def allOk : Behavior :=
  ⟨fun _ => false, fun _ => false, fun _ => false, fun _ => false,
   fun _ => false, fun _ => false, fun _ => false⟩

/-- The behaviour in which only the `on_apply` callback may raise,
according to `cbf`. -/
def cbBehavior (cbf : String → Bool) : Behavior :=
  ⟨fun _ => false, fun _ => false, cbf, fun _ => false,
   fun _ => false, fun _ => false, fun _ => false⟩

/-! ## `MigrationDAO.add_migration` (dao.py lines 88-152)

The Cypher `MATCH head … CREATE entry … MERGE head-[:MIGRATED_TO]->entry`
run is abstracted by the counter pair its result summary reports; the
surrounding `with session.begin_transaction()` commits on normal exit and
rolls back when an exception escapes the block. -/

structure Counters where
  nodesCreated : Nat
  relationshipsCreated : Nat
deriving Repr, DecidableEq

/-- `MigrationDAO.add_migration`, at the level of the integrity check:
run the append query (whose effect the store summarises as `c`), roll the
transaction back first when `dryRun`, then raise `ValueError` iff
**both** `c.nodesCreated != 1` and `c.relationshipsCreated != 1` (the
code joins the two comparisons with `and`).  The returned trace records
how the transaction ended. -/
def add_migration (c : Counters) (dryRun : Bool) : List Ev × Except MigErr Unit :=
  let preEvents : List Ev := if dryRun then [Ev.txAbort] else []
  if c.nodesCreated ≠ 1 ∧ c.relationshipsCreated ≠ 1 then
    (preEvents ++ (if dryRun then [] else [Ev.txAbort]), Except.error MigErr.ledgerIntegrity)
  else
    (preEvents ++ (if dryRun then [] else [Ev.txCommit]), Except.ok ())

/-! ## `Executor.migrate` (executor.py lines 49-101) -/

/-- The per-migration application loop of `Executor.migrate`
(executor.py lines 89-101): for each migration, a dry-run append, then a
transaction running the forward body and the optional `on_apply`
callback (an exception escaping the `with` block aborts the
transaction), then the durable ledger append. -/
def applyLoop (beh : Behavior) (onApply : Bool) : List Mig → List Ev × Except MigErr Unit
  | [] => ([], Except.ok ())
  | m :: rest =>
    if beh.dryRunFails m.version then
      ([Ev.dryRunAppend m.version], Except.error (MigErr.dryRunFailure m.version))
    else if beh.applyFails m.version then
      ([Ev.dryRunAppend m.version, Ev.txBegin, Ev.txAbort],
       Except.error (MigErr.bodyFailure m.version))
    else if onApply && beh.onApplyFails m.version then
      ([Ev.dryRunAppend m.version, Ev.txBegin, Ev.applyBody m.version,
        Ev.onApplyCb m.version, Ev.txAbort],
       Except.error (MigErr.callbackFailure m.version))
    else if beh.appendFails m.version then
      ([Ev.dryRunAppend m.version, Ev.txBegin, Ev.applyBody m.version] ++
        (if onApply then [Ev.onApplyCb m.version] else []) ++ [Ev.txCommit],
       Except.error (MigErr.appendFailure m.version))
    else
      let here := [Ev.dryRunAppend m.version, Ev.txBegin, Ev.applyBody m.version] ++
        (if onApply then [Ev.onApplyCb m.version] else []) ++
        [Ev.txCommit, Ev.appendLedger m.version]
      let (evs, res) := applyLoop beh onApply rest
      (here ++ evs, res)

/-- `Executor.migrate` (executor.py lines 49-101): fail on invalid
findings before touching the store; create baseline and constraints when
nothing was ever applied; when a target version is given, keep the
pending prefix up to its first occurrence (failing when absent); then run
the application loop. -/
def Executor.migrate (analysis : AnalyzingResult) (beh : Behavior)
    (version : Option String) (onApply : Bool) : List Ev × Except MigErr Unit :=
  if analysis.invalidVersions ≠ [] then
    ([], Except.error MigErr.validation)
  else
    let baseEvs : List Ev :=
      if analysis.latestAppliedVersion = none then
        [Ev.createBaseline, Ev.createConstraints]
      else []
    match version with
    | none =>
      let (evs, res) := applyLoop beh onApply analysis.pendingMigrations
      (baseEvs ++ evs, res)
    | some v =>
      match analysis.pendingMigrations.findIdx? (fun m => m.version == v) with
      | none => (baseEvs, Except.error (MigErr.notFound v))
      | some i =>
        let (evs, res) := applyLoop beh onApply (analysis.pendingMigrations.take (i + 1))
        (baseEvs ++ evs, res)

/-! ## `Executor.rollback` (executor.py lines 103-173) -/

/-- The selection step of `Executor.rollback` (executor.py lines
118-141): fail when nothing is applied; with no target version take only
the most recent entry; with a target version take everything strictly
after its first occurrence, most recent first, failing when absent. -/
def rollbackSelect (applied : List Mig) (version : Option String) :
    Except MigErr (List Mig) :=
  if applied.isEmpty then
    Except.error MigErr.noMigrationsToRollback
  else
    match version with
    | none => Except.ok [applied.getLastD ⟨"", false⟩]
    | some v =>
      match applied.findIdx? (fun m => m.version == v) with
      | none => Except.error (MigErr.notFound v)
      | some i => Except.ok ((applied.drop (i + 1)).reverse)

/-- The per-entry loop of `Executor.rollback` (executor.py lines
144-173): find the local migration; inside one transaction run the
backward body (raising `NotImplementedError`, surfaced as `ValueError`,
when it is undefined), the optional callback, and — still inside the
transaction block — `dao.remove_migration`; the transaction commits only
on normal exit of the block. -/
def rollbackLoop (locals_ : List Mig) (beh : Behavior) (onRollback : Bool) :
    List Mig → List Ev × Except MigErr Unit
  | [] => ([], Except.ok ())
  | m :: rest =>
    match locals_.find? (fun lm => lm.version == m.version) with
    | none => ([], Except.error (MigErr.localMissing m.version))
    | some lm =>
      if !lm.hasBackward then
        ([Ev.txBegin, Ev.txAbort], Except.error (MigErr.unsupported m.version))
      else if beh.rollbackBodyFails lm.version then
        ([Ev.txBegin, Ev.txAbort], Except.error (MigErr.bodyFailure lm.version))
      else if onRollback && beh.onRollbackFails lm.version then
        ([Ev.txBegin, Ev.rollbackBody lm.version, Ev.onRollbackCb lm.version, Ev.txAbort],
         Except.error (MigErr.callbackFailure lm.version))
      else if beh.removeFails m.version then
        ([Ev.txBegin, Ev.rollbackBody lm.version] ++
          (if onRollback then [Ev.onRollbackCb lm.version] else []) ++ [Ev.txAbort],
         Except.error (MigErr.removeFailure m.version))
      else
        let here := [Ev.txBegin, Ev.rollbackBody lm.version] ++
          (if onRollback then [Ev.onRollbackCb lm.version] else []) ++
          [Ev.removeLedger m.version, Ev.txCommit]
        let (evs, res) := rollbackLoop locals_ beh onRollback rest
        (here ++ evs, res)

/-- `Executor.rollback` (executor.py lines 103-173): selection followed
by the per-entry loop. -/
def Executor.rollback (applied locals_ : List Mig) (beh : Behavior)
    (version : Option String) (onRollback : Bool) : List Ev × Except MigErr Unit :=
  match rollbackSelect applied version with
  | Except.error e => ([], Except.error e)
  | Except.ok selected => rollbackLoop locals_ beh onRollback selected

/-- Versions of the forward bodies executed in a trace. -/
def appliedVersions (evs : List Ev) : List String :=
  evs.filterMap (fun e => match e with | Ev.applyBody v => some v | _ => none)

/-- Versions durably appended to the ledger in a trace. -/
def appendedVersions (evs : List Ev) : List String :=
  evs.filterMap (fun e => match e with | Ev.appendLedger v => some v | _ => none)

/-- Versions removed from the ledger in a trace. -/
def removedVersions (evs : List Ev) : List String :=
  evs.filterMap (fun e => match e with | Ev.removeLedger v => some v | _ => none)

/-! ## Helper notions for the trace theorems -/

/-- The events of one fully successful forward application of `m`. -/
def migSuccessEvs (onApply : Bool) (m : Mig) : List Ev :=
  [Ev.dryRunAppend m.version, Ev.txBegin, Ev.applyBody m.version] ++
    (if onApply then [Ev.onApplyCb m.version] else []) ++
    [Ev.txCommit, Ev.appendLedger m.version]

/-- The trace of a fully successful application batch. -/
def successTrace (onApply : Bool) (ms : List Mig) : List Ev :=
  ms.flatMap (migSuccessEvs onApply)

/-- All external steps around the forward application of `m` succeed. -/
def MigOk (beh : Behavior) (onApply : Bool) (m : Mig) : Prop :=
  beh.dryRunFails m.version = false ∧ beh.applyFails m.version = false ∧
    (onApply && beh.onApplyFails m.version) = false ∧ beh.appendFails m.version = false

instance (beh : Behavior) (onApply : Bool) (m : Mig) : Decidable (MigOk beh onApply m) := by
  unfold MigOk; infer_instance

/-- The events of one fully successful rollback of `m`: the ledger
removal happens inside the transaction block, before the commit. -/
def rollSuccessEvs (onRollback : Bool) (m : Mig) : List Ev :=
  [Ev.txBegin, Ev.rollbackBody m.version] ++
    (if onRollback then [Ev.onRollbackCb m.version] else []) ++
    [Ev.removeLedger m.version, Ev.txCommit]

/-- The trace of a fully successful rollback batch. -/
def rollSuccessTrace (onRollback : Bool) (ms : List Mig) : List Ev :=
  ms.flatMap (rollSuccessEvs onRollback)

/-- The rollback of entry `m` finds a local migration with a backward
body and every external step succeeds. -/
def RollOk (locals_ : List Mig) (beh : Behavior) (onRollback : Bool) (m : Mig) : Prop :=
  match locals_.find? (fun lm => lm.version == m.version) with
  | some lm =>
    lm.hasBackward = true ∧ beh.rollbackBodyFails lm.version = false ∧
      (onRollback && beh.onRollbackFails lm.version) = false ∧
      beh.removeFails m.version = false
  | none => False

instance (locals_ : List Mig) (beh : Behavior) (onRollback : Bool) (m : Mig) :
    Decidable (RollOk locals_ beh onRollback m) := by
  unfold RollOk
  cases locals_.find? (fun lm => lm.version == m.version) <;> infer_instance

theorem applyLoop_success (beh : Behavior) (onApply : Bool) (ms : List Mig)
    (h : ∀ m ∈ ms, MigOk beh onApply m) :
    applyLoop beh onApply ms = (successTrace onApply ms, Except.ok ()) := by
  induction ms with
  | nil => rfl
  | cons m rest ih =>
    obtain ⟨h1, h2, h3, h4⟩ := h m (List.mem_cons_self m rest)
    simp only [applyLoop, h1, h2, h3, h4, if_false, Bool.false_eq_true,
      ih (fun x hx => h x (List.mem_cons_of_mem m hx))]
    simp [successTrace, migSuccessEvs]

theorem rollbackLoop_success (locals_ : List Mig) (beh : Behavior) (onRollback : Bool)
    (ms : List Mig) (h : ∀ m ∈ ms, RollOk locals_ beh onRollback m) :
    rollbackLoop locals_ beh onRollback ms = (rollSuccessTrace onRollback ms, Except.ok ()) := by
  induction ms with
  | nil => rfl
  | cons m rest ih =>
    have hm := h m (List.mem_cons_self m rest)
    unfold RollOk at hm
    cases hfind : locals_.find? (fun lm => lm.version == m.version) with
    | none => rw [hfind] at hm; exact absurd hm (by simp)
    | some lm =>
      rw [hfind] at hm
      obtain ⟨h1, h2, h3, h4⟩ := hm
      have hv : lm.version = m.version := by
        have := List.find?_some hfind
        simpa using this
      rw [hv] at h2 h3
      have h3' : ¬(onRollback = true ∧ beh.onRollbackFails m.version = true) := by
        intro hc
        rw [hc.1, hc.2] at h3
        simp at h3
      simp only [rollbackLoop, hfind, h1, h2, h3', h4, hv, if_false,
        Bool.not_true, Bool.false_eq_true,
        ih (fun x hx => h x (List.mem_cons_of_mem m hx))]
      simp [rollSuccessTrace, rollSuccessEvs, h2, h3']

theorem applyLoop_callback_failure (beh : Behavior) (pre : List Mig) (m : Mig)
    (post : List Mig) (hpre : ∀ p ∈ pre, MigOk beh true p)
    (hd : beh.dryRunFails m.version = false)
    (ha : beh.applyFails m.version = false)
    (hc : beh.onApplyFails m.version = true) :
    applyLoop beh true (pre ++ m :: post) =
      (successTrace true pre ++
        [Ev.dryRunAppend m.version, Ev.txBegin, Ev.applyBody m.version,
         Ev.onApplyCb m.version, Ev.txAbort],
       Except.error (MigErr.callbackFailure m.version)) := by
  induction pre with
  | nil => simp [applyLoop, hd, ha, hc, successTrace]
  | cons p ps ih =>
    obtain ⟨h1, h2, h3, h4⟩ := hpre p (List.mem_cons_self p ps)
    have ihh := ih (fun x hx => hpre x (List.mem_cons_of_mem p hx))
    simp only [List.cons_append, applyLoop, h1, h2, h3, h4, if_false,
      Bool.false_eq_true, ihh]
    simp [successTrace, migSuccessEvs, ihh]

theorem rollbackLoop_unsupported (locals_ : List Mig) (beh : Behavior)
    (onRollback : Bool) (pre : List Mig) (m : Mig) (post : List Mig)
    (hpre : ∀ p ∈ pre, RollOk locals_ beh onRollback p) (lm : Mig)
    (hfind : locals_.find? (fun l => l.version == m.version) = some lm)
    (hnb : lm.hasBackward = false) :
    rollbackLoop locals_ beh onRollback (pre ++ m :: post) =
      (rollSuccessTrace onRollback pre ++ [Ev.txBegin, Ev.txAbort],
       Except.error (MigErr.unsupported m.version)) := by
  induction pre with
  | nil => simp [rollbackLoop, hfind, hnb, rollSuccessTrace]
  | cons p ps ih =>
    have hp := hpre p (List.mem_cons_self p ps)
    unfold RollOk at hp
    cases hfindp : locals_.find? (fun l => l.version == p.version) with
    | none => rw [hfindp] at hp; exact absurd hp (by simp)
    | some lp =>
      rw [hfindp] at hp
      obtain ⟨h1, h2, h3, h4⟩ := hp
      have hv : lp.version = p.version := by
        have := List.find?_some hfindp
        simpa using this
      rw [hv] at h2 h3
      have h3' : ¬(onRollback = true ∧ beh.onRollbackFails p.version = true) := by
        intro hc
        rw [hc.1, hc.2] at h3
        simp at h3
      have ihh := ih (fun x hx => hpre x (List.mem_cons_of_mem p hx))
      simp only [List.cons_append, rollbackLoop, hfindp, h1, h2, h3', h4, hv, if_false,
        Bool.not_true, Bool.false_eq_true, ihh]
      simp [rollSuccessTrace, rollSuccessEvs, h2, h3', ihh]

theorem appendedVersions_append (a b : List Ev) :
    appendedVersions (a ++ b) = appendedVersions a ++ appendedVersions b :=
  List.filterMap_append a b _

theorem removedVersions_append (a b : List Ev) :
    removedVersions (a ++ b) = removedVersions a ++ removedVersions b :=
  List.filterMap_append a b _

theorem appliedVersions_append (a b : List Ev) :
    appliedVersions (a ++ b) = appliedVersions a ++ appliedVersions b :=
  List.filterMap_append a b _

theorem appendedVersions_successTrace (onApply : Bool) (ms : List Mig) :
    appendedVersions (successTrace onApply ms) = ms.map (fun m => m.version) := by
  induction ms with
  | nil => rfl
  | cons m rest ih =>
    have hstep : successTrace onApply (m :: rest) =
        migSuccessEvs onApply m ++ successTrace onApply rest := by
      simp [successTrace]
    rw [hstep, appendedVersions_append, ih]
    cases onApply <;> rfl

theorem appliedVersions_successTrace (onApply : Bool) (ms : List Mig) :
    appliedVersions (successTrace onApply ms) = ms.map (fun m => m.version) := by
  induction ms with
  | nil => rfl
  | cons m rest ih =>
    have hstep : successTrace onApply (m :: rest) =
        migSuccessEvs onApply m ++ successTrace onApply rest := by
      simp [successTrace]
    rw [hstep, appliedVersions_append, ih]
    cases onApply <;> rfl

theorem removedVersions_rollSuccessTrace (onRollback : Bool) (ms : List Mig) :
    removedVersions (rollSuccessTrace onRollback ms) = ms.map (fun m => m.version) := by
  induction ms with
  | nil => rfl
  | cons m rest ih =>
    have hstep : rollSuccessTrace onRollback (m :: rest) =
        rollSuccessEvs onRollback m ++ rollSuccessTrace onRollback rest := by
      simp [rollSuccessTrace]
    rw [hstep, removedVersions_append, ih]
    cases onRollback <;> rfl

theorem migOk_allOk (onApply : Bool) (m : Mig) : MigOk allOk onApply m := by
  refine ⟨rfl, rfl, ?_, rfl⟩
  simp [allOk]

theorem findIdx?_append_first {α : Type} (p : α → Bool) (pre : List α) (m : α)
    (post : List α) (hpre : ∀ a ∈ pre, p a = false) (hm : p m = true) :
    (pre ++ m :: post).findIdx? p = some pre.length := by
  induction pre with
  | nil => simp [hm]
  | cons a as ih =>
    have ha := hpre a (List.mem_cons_self a as)
    simp only [List.cons_append, List.findIdx?_cons, ha, Bool.false_eq_true, if_false,
      List.findIdx?_succ, ih (fun x hx => hpre x (List.mem_cons_of_mem a hx))]
    rfl

theorem take_length_succ_append {α : Type} (pre : List α) (m : α) (post : List α) :
    (pre ++ m :: post).take (pre.length + 1) = pre ++ [m] := by
  induction pre with
  | nil => simp
  | cons a as ih => simp [ih]

theorem drop_length_succ_append {α : Type} (pre : List α) (m : α) (post : List α) :
    (pre ++ m :: post).drop (pre.length + 1) = post := by
  induction pre with
  | nil => simp
  | cons a as ih => simp [ih]

/-- Claim C2: an analysis result with at least one invalid finding makes
`Executor.migrate` fail with `ValidationError` (raised as `ValueError`)
with an empty effect trace: no baseline creation, no constraint
creation, no forward body execution, no ledger append. -/
theorem C2_migrate_blocked_on_invalid (analysis : AnalyzingResult) (beh : Behavior)
    (version : Option String) (onApply : Bool)
    (h : analysis.invalidVersions ≠ []) :
    Executor.migrate analysis beh version onApply = ([], Except.error MigErr.validation) := by
  simp [Executor.migrate, h]

/-- Witness for C2 at a concrete drifted analysis result. -/
theorem C2_migrate_blocked_on_invalid_witness :
    Executor.migrate ⟨[⟨"0002", true⟩], ["0001"], none⟩ allOk none false =
      ([], Except.error MigErr.validation) :=
  C2_migrate_blocked_on_invalid ⟨[⟨"0002", true⟩], ["0001"], none⟩ allOk none false
    (by simp)

/-- Claim C4: `Executor.migrate` with a target version applies exactly
the prefix of the pending list up to and including the first entry whose
version equals the target, in list order (the pending list's ascending
order); with a target absent from pending it fails with `NotFound`
(raised as `ValueError`) and applies no migration and appends nothing;
with no target it applies all pending migrations. -/
theorem C4_migrate_target_selection (latest : Option String) (onApply : Bool) :
    (∀ (pre : List Mig) (m : Mig) (post : List Mig),
      (∀ p ∈ pre, p.version ≠ m.version) →
      Executor.migrate ⟨pre ++ m :: post, [], latest⟩ allOk (some m.version) onApply =
        ((if latest = none then [Ev.createBaseline, Ev.createConstraints] else []) ++
          successTrace onApply (pre ++ [m]), Except.ok ()) ∧
      appliedVersions
          (Executor.migrate ⟨pre ++ m :: post, [], latest⟩ allOk (some m.version) onApply).1 =
        (pre ++ [m]).map (fun p => p.version)) ∧
    (∀ (pending : List Mig) (v : String), (∀ p ∈ pending, p.version ≠ v) →
      Executor.migrate ⟨pending, [], latest⟩ allOk (some v) onApply =
        ((if latest = none then [Ev.createBaseline, Ev.createConstraints] else []),
         Except.error (MigErr.notFound v)) ∧
      appliedVersions
          (Executor.migrate ⟨pending, [], latest⟩ allOk (some v) onApply).1 = [] ∧
      appendedVersions
          (Executor.migrate ⟨pending, [], latest⟩ allOk (some v) onApply).1 = []) ∧
    (∀ pending : List Mig,
      Executor.migrate ⟨pending, [], latest⟩ allOk none onApply =
        ((if latest = none then [Ev.createBaseline, Ev.createConstraints] else []) ++
          successTrace onApply pending, Except.ok ()) ∧
      appliedVersions (Executor.migrate ⟨pending, [], latest⟩ allOk none onApply).1 =
        pending.map (fun p => p.version)) := by
  have hbase : appliedVersions
      (if latest = none then [Ev.createBaseline, Ev.createConstraints] else []) = [] := by
    cases latest <;> rfl
  refine ⟨?_, ?_, ?_⟩
  · intro pre m post hpre
    have hfind : (pre ++ m :: post).findIdx? (fun p => p.version == m.version) =
        some pre.length := by
      refine findIdx?_append_first _ pre m post (fun a ha => ?_) (by simp)
      simp [hpre a ha]
    have hloop := applyLoop_success allOk onApply (pre ++ [m])
      (fun x _ => migOk_allOk onApply x)
    have hmain : Executor.migrate ⟨pre ++ m :: post, [], latest⟩ allOk
        (some m.version) onApply =
        ((if latest = none then [Ev.createBaseline, Ev.createConstraints] else []) ++
          successTrace onApply (pre ++ [m]), Except.ok ()) := by
      simp only [Executor.migrate, hfind, take_length_succ_append, hloop]
      simp
    refine ⟨hmain, ?_⟩
    rw [hmain]
    simp only [appliedVersions_append, hbase, appliedVersions_successTrace]
    simp
  · intro pending v hv
    have hfind : pending.findIdx? (fun p => p.version == v) = none := by
      rw [List.findIdx?_eq_none_iff]
      intro x hx
      simp [hv x hx]
    have hmain : Executor.migrate ⟨pending, [], latest⟩ allOk (some v) onApply =
        ((if latest = none then [Ev.createBaseline, Ev.createConstraints] else []),
         Except.error (MigErr.notFound v)) := by
      simp only [Executor.migrate, hfind]
      simp
    refine ⟨hmain, ?_⟩
    rw [hmain]
    refine ⟨hbase, ?_⟩
    cases latest <;> rfl
  · intro pending
    have hloop := applyLoop_success allOk onApply pending (fun x _ => migOk_allOk onApply x)
    have hmain : Executor.migrate ⟨pending, [], latest⟩ allOk none onApply =
        ((if latest = none then [Ev.createBaseline, Ev.createConstraints] else []) ++
          successTrace onApply pending, Except.ok ()) := by
      simp only [Executor.migrate, hloop]
      simp
    refine ⟨hmain, ?_⟩
    rw [hmain]
    simp only [appliedVersions_append, hbase, appliedVersions_successTrace]
    simp

/-- Witness for C4: pending `0001,0002,0003` with target `0002` applies
exactly `0001, 0002`; absent target `0009` applies nothing. -/
theorem C4_migrate_target_selection_witness :
    appliedVersions
        (Executor.migrate ⟨[⟨"0001", true⟩, ⟨"0002", true⟩, ⟨"0003", true⟩], [], none⟩
          allOk (some "0002") false).1 = ["0001", "0002"] ∧
    Executor.migrate ⟨[⟨"0001", true⟩, ⟨"0002", true⟩, ⟨"0003", true⟩], [], none⟩
        allOk (some "0009") false =
      ([Ev.createBaseline, Ev.createConstraints], Except.error (MigErr.notFound "0009")) := by
  constructor
  · exact ((C4_migrate_target_selection none false).1 [⟨"0001", true⟩] ⟨"0002", true⟩
      [⟨"0003", true⟩] (by decide)).2
  · exact (((C4_migrate_target_selection none false).2.1
      [⟨"0001", true⟩, ⟨"0002", true⟩, ⟨"0003", true⟩] "0009" (by decide)).1)

/-- Claim C5: the selection step of `Executor.rollback`: an empty
applied list fails with `ValidationError` ("no migrations to rollback",
raised as `ValueError`); no target selects exactly the most recently
applied entry; a target present in the applied list selects exactly the
entries strictly after it, most recent first; an absent target fails
with `NotFound` (raised as `ValueError`). -/
theorem C5_rollback_selection :
    (∀ version : Option String,
      rollbackSelect [] version = Except.error MigErr.noMigrationsToRollback) ∧
    (∀ (init : List Mig) (l : Mig), rollbackSelect (init ++ [l]) none = Except.ok [l]) ∧
    (∀ (pre : List Mig) (m : Mig) (post : List Mig),
      (∀ p ∈ pre, p.version ≠ m.version) →
      rollbackSelect (pre ++ m :: post) (some m.version) = Except.ok post.reverse) ∧
    (∀ (applied : List Mig) (v : String), applied ≠ [] →
      (∀ a ∈ applied, a.version ≠ v) →
      rollbackSelect applied (some v) = Except.error (MigErr.notFound v)) := by
  refine ⟨fun version => rfl, ?_, ?_, ?_⟩
  · intro init l
    have hne : (init ++ [l]).isEmpty = false := by
      cases init <;> rfl
    simp [rollbackSelect, hne]
  · intro pre m post hpre
    have hne : (pre ++ m :: post).isEmpty = false := by
      cases pre <;> rfl
    have hfind : (pre ++ m :: post).findIdx? (fun p => p.version == m.version) =
        some pre.length := by
      refine findIdx?_append_first _ pre m post (fun a ha => ?_) (by simp)
      simp [hpre a ha]
    simp [rollbackSelect, hne, hfind, drop_length_succ_append]
  · intro applied v hne hv
    have hempty : applied.isEmpty = false := by
      cases applied with
      | nil => exact absurd rfl hne
      | cons a as => rfl
    have hfind : applied.findIdx? (fun p => p.version == v) = none := by
      rw [List.findIdx?_eq_none_iff]
      intro x hx
      simp [hv x hx]
    simp [rollbackSelect, hempty, hfind]

/-- Witness for C5 at concrete applied chains. -/
theorem C5_rollback_selection_witness :
    rollbackSelect ([] : List Mig) none = Except.error MigErr.noMigrationsToRollback ∧
    rollbackSelect [⟨"0001", true⟩, ⟨"0002", true⟩] none = Except.ok [⟨"0002", true⟩] ∧
    rollbackSelect [⟨"0001", true⟩, ⟨"0002", true⟩, ⟨"0003", true⟩] (some "0001") =
      Except.ok [⟨"0003", true⟩, ⟨"0002", true⟩] ∧
    rollbackSelect [⟨"0001", true⟩, ⟨"0002", true⟩] (some "0009") =
      Except.error (MigErr.notFound "0009") := by
  refine ⟨C5_rollback_selection.1 none, ?_, ?_, ?_⟩
  · exact C5_rollback_selection.2.1 [⟨"0001", true⟩] ⟨"0002", true⟩
  · exact C5_rollback_selection.2.2.1 [] ⟨"0001", true⟩ [⟨"0002", true⟩, ⟨"0003", true⟩]
      (by decide)
  · exact C5_rollback_selection.2.2.2 [⟨"0001", true⟩, ⟨"0002", true⟩] "0009"
      (by decide) (by decide)

theorem appendLedger_mem_iff (v : String) (evs : List Ev) :
    Ev.appendLedger v ∈ evs ↔ v ∈ appendedVersions evs := by
  constructor
  · intro h
    exact List.mem_filterMap.mpr ⟨Ev.appendLedger v, h, rfl⟩
  · intro h
    obtain ⟨e, he, hfe⟩ := List.mem_filterMap.mp h
    cases e <;> simp at hfe
    subst hfe
    exact he

theorem removeLedger_mem_iff (v : String) (evs : List Ev) :
    Ev.removeLedger v ∈ evs ↔ v ∈ removedVersions evs := by
  constructor
  · intro h
    exact List.mem_filterMap.mpr ⟨Ev.removeLedger v, h, rfl⟩
  · intro h
    obtain ⟨e, he, hfe⟩ := List.mem_filterMap.mp h
    cases e <;> simp at hfe
    subst hfe
    exact he

/-- Claim C6: when the `on_apply` callback raises at one migration of a
batch, the transaction around that migration's forward body is aborted
(no commit, so the target store is unchanged for it), no ledger record
is appended for it, the remaining migrations of the batch are never
started, and every earlier migration of the batch stays committed with
its ledger record appended. -/
theorem C6_callback_failure_aborts (latest : Option String) (pre : List Mig) (m : Mig)
    (post : List Mig) (cbf : String → Bool)
    (hpre : ∀ p ∈ pre, cbf p.version = false)
    (hm : cbf m.version = true)
    (hnodup : m.version ∉ pre.map (fun p => p.version)) :
    Executor.migrate ⟨pre ++ m :: post, [], latest⟩ (cbBehavior cbf) none true =
      ((if latest = none then [Ev.createBaseline, Ev.createConstraints] else []) ++
        (successTrace true pre ++
          [Ev.dryRunAppend m.version, Ev.txBegin, Ev.applyBody m.version,
           Ev.onApplyCb m.version, Ev.txAbort]),
       Except.error (MigErr.callbackFailure m.version)) ∧
    appendedVersions
        (Executor.migrate ⟨pre ++ m :: post, [], latest⟩ (cbBehavior cbf) none true).1 =
      pre.map (fun p => p.version) ∧
    Ev.appendLedger m.version ∉
      (Executor.migrate ⟨pre ++ m :: post, [], latest⟩ (cbBehavior cbf) none true).1 := by
  have hloop := applyLoop_callback_failure (cbBehavior cbf) pre m post
    (fun p hp => ⟨rfl, rfl, by simp [cbBehavior, hpre p hp], rfl⟩) rfl rfl hm
  have hbase : appendedVersions
      (if latest = none then [Ev.createBaseline, Ev.createConstraints] else []) = [] := by
    cases latest <;> rfl
  have hmain : Executor.migrate ⟨pre ++ m :: post, [], latest⟩ (cbBehavior cbf) none true =
      ((if latest = none then [Ev.createBaseline, Ev.createConstraints] else []) ++
        (successTrace true pre ++
          [Ev.dryRunAppend m.version, Ev.txBegin, Ev.applyBody m.version,
           Ev.onApplyCb m.version, Ev.txAbort]),
       Except.error (MigErr.callbackFailure m.version)) := by
    simp only [Executor.migrate, hloop]
    simp
  refine ⟨hmain, ?_, ?_⟩
  · rw [hmain]
    simp only [appendedVersions_append, hbase, appendedVersions_successTrace]
    simp [appendedVersions]
  · rw [hmain]
    intro hmem
    rw [appendLedger_mem_iff] at hmem
    simp only [appendedVersions_append, hbase, appendedVersions_successTrace] at hmem
    simp only [List.nil_append, List.mem_append] at hmem
    rcases hmem with hmem | hmem
    · exact hnodup hmem
    · simp [appendedVersions] at hmem

/-- Witness for C6: of the batch `0001, 0002, 0003` with a callback that
raises on `0002`, only `0001` is appended; `0002`'s transaction aborts;
`0003` is never started. -/
theorem C6_callback_failure_aborts_witness :
    Executor.migrate ⟨[⟨"0001", true⟩, ⟨"0002", true⟩, ⟨"0003", true⟩], [], none⟩
        (cbBehavior (fun v => v == "0002")) none true =
      ([Ev.createBaseline, Ev.createConstraints] ++
        (successTrace true [⟨"0001", true⟩] ++
          [Ev.dryRunAppend "0002", Ev.txBegin, Ev.applyBody "0002",
           Ev.onApplyCb "0002", Ev.txAbort]),
       Except.error (MigErr.callbackFailure "0002")) :=
  (C6_callback_failure_aborts none [⟨"0001", true⟩] ⟨"0002", true⟩ [⟨"0003", true⟩]
    (fun v => v == "0002") (by decide) (by decide) (by decide)).1

/-- Claim C9: when `Executor.rollback` reaches an entry whose matching
local migration has no backward body, the call fails with
`UnsupportedOperation` (a `NotImplementedError` surfaced as
`ValueError`) for that version and halts: that entry's transaction is
aborted, its ledger record is not removed, and the only ledger removals
in the call are those of the entries already rolled back before it. -/
theorem C9_rollback_unsupported (applied locals_ : List Mig) (beh : Behavior)
    (version : Option String) (onRollback : Bool) (pre : List Mig) (m : Mig)
    (post : List Mig) (lm : Mig)
    (hsel : rollbackSelect applied version = Except.ok (pre ++ m :: post))
    (hpre : ∀ p ∈ pre, RollOk locals_ beh onRollback p)
    (hfind : locals_.find? (fun l => l.version == m.version) = some lm)
    (hnb : lm.hasBackward = false)
    (hnodup : m.version ∉ pre.map (fun p => p.version)) :
    Executor.rollback applied locals_ beh version onRollback =
      (rollSuccessTrace onRollback pre ++ [Ev.txBegin, Ev.txAbort],
       Except.error (MigErr.unsupported m.version)) ∧
    removedVersions (Executor.rollback applied locals_ beh version onRollback).1 =
      pre.map (fun p => p.version) ∧
    Ev.removeLedger m.version ∉
      (Executor.rollback applied locals_ beh version onRollback).1 := by
  have hloop := rollbackLoop_unsupported locals_ beh onRollback pre m post hpre lm hfind hnb
  have hmain : Executor.rollback applied locals_ beh version onRollback =
      (rollSuccessTrace onRollback pre ++ [Ev.txBegin, Ev.txAbort],
       Except.error (MigErr.unsupported m.version)) := by
    simp [Executor.rollback, hsel, hloop]
  refine ⟨hmain, ?_, ?_⟩
  · rw [hmain]
    simp only [removedVersions_append, removedVersions_rollSuccessTrace]
    simp [removedVersions]
  · rw [hmain]
    intro hmem
    rw [removeLedger_mem_iff] at hmem
    simp only [removedVersions_append, removedVersions_rollSuccessTrace] at hmem
    simp only [List.mem_append] at hmem
    rcases hmem with hmem | hmem
    · exact hnodup hmem
    · simp [removedVersions] at hmem

/-- Witness for C9: rolling back to `0001` selects `0003, 0002`;
`0003` is rolled back and removed, then `0002` (no backward body) fails
with `UnsupportedOperation` and its ledger entry stays. -/
theorem C9_rollback_unsupported_witness :
    Executor.rollback [⟨"0001", true⟩, ⟨"0002", true⟩, ⟨"0003", true⟩]
        [⟨"0002", false⟩, ⟨"0003", true⟩] allOk (some "0001") true =
      (rollSuccessTrace true [⟨"0003", true⟩] ++ [Ev.txBegin, Ev.txAbort],
       Except.error (MigErr.unsupported "0002")) :=
  (C9_rollback_unsupported [⟨"0001", true⟩, ⟨"0002", true⟩, ⟨"0003", true⟩]
    [⟨"0002", false⟩, ⟨"0003", true⟩] allOk (some "0001") true
    [⟨"0003", true⟩] ⟨"0002", true⟩ [] ⟨"0002", false⟩
    (by rfl) (by decide) (by rfl) (by rfl) (by decide)).1

set_option maxRecDepth 8000

/-- Counterexample to claim C3: in a successful single-entry rollback,
`dao.remove_migration` runs at position 3 of the effect trace, before
the backward body's transaction commit at position 4 — the code calls
the ledger removal inside the `with session.begin_transaction()` block,
so the removal is invoked before that transaction has committed. -/
theorem C3_counterexample :
    (Executor.rollback [⟨"0001", true⟩] [⟨"0001", true⟩] allOk none true).1 =
      [Ev.txBegin, Ev.rollbackBody "0001", Ev.onRollbackCb "0001",
       Ev.removeLedger "0001", Ev.txCommit] ∧
    (Executor.rollback [⟨"0001", true⟩] [⟨"0001", true⟩] allOk none true).1.indexOf
        (Ev.removeLedger "0001") <
      (Executor.rollback [⟨"0001", true⟩] [⟨"0001", true⟩] allOk none true).1.indexOf
        Ev.txCommit := by
  constructor
  · rfl
  · decide

/-- Claim C3 (amended): during `Executor.rollback` of each selected
entry, the sequence of effects is: open a transaction, execute the
backward body, invoke the `onRollback` callback, call the ledger remove
operation, and then commit that transaction — `Ledger.remove(version)`
is invoked inside the backward body's transaction block, after the
callback but before the commit, not after it. -/
theorem C3_amended_remove_before_commit (applied locals_ : List Mig) (beh : Behavior)
    (version : Option String) (onRollback : Bool) (selected : List Mig)
    (hsel : rollbackSelect applied version = Except.ok selected)
    (hok : ∀ m ∈ selected, RollOk locals_ beh onRollback m) :
    Executor.rollback applied locals_ beh version onRollback =
      (rollSuccessTrace onRollback selected, Except.ok ()) := by
  simp [Executor.rollback, hsel,
    rollbackLoop_success locals_ beh onRollback selected hok]

/-- Witness for the amended C3 at a single-entry rollback; the
per-entry trace places the ledger removal before the commit. -/
theorem C3_amended_remove_before_commit_witness :
    Executor.rollback [⟨"0001", true⟩] [⟨"0001", true⟩] allOk none true =
      (rollSuccessTrace true [⟨"0001", true⟩], Except.ok ()) :=
  C3_amended_remove_before_commit [⟨"0001", true⟩] [⟨"0001", true⟩] allOk none true
    [⟨"0001", true⟩] (by rfl) (by decide)

/-- Counterexample to claim C1: the store reporting one created node and
zero created relationships is a combination other than (1, 1), yet the
non-dry-run `add_migration` call succeeds and commits — the code raises
only when **both** counters differ from one, because the two `!= 1`
comparisons are joined with `and`. -/
theorem C1_counterexample :
    add_migration ⟨1, 0⟩ false = ([Ev.txCommit], Except.ok ()) ∧
    ¬(Counters.mk 1 0 = Counters.mk 1 1) := by
  constructor
  · rfl
  · decide

/-- Claim C1 (amended): a non-dry-run `add_migration` call fails with
`LedgerIntegrityError` (raised as `ValueError`) exactly when the store
reports both a created-node count different from one and a
created-relationship count different from one; in that case the
transaction is aborted and no partial state is retained, and in every
other case the call succeeds and commits. -/
theorem C1_amended_integrity_check (c : Counters) :
    ((add_migration c false).2 = Except.error MigErr.ledgerIntegrity ↔
      (c.nodesCreated ≠ 1 ∧ c.relationshipsCreated ≠ 1)) ∧
    (c.nodesCreated ≠ 1 ∧ c.relationshipsCreated ≠ 1 →
      add_migration c false = ([Ev.txAbort], Except.error MigErr.ledgerIntegrity)) ∧
    (¬(c.nodesCreated ≠ 1 ∧ c.relationshipsCreated ≠ 1) →
      add_migration c false = ([Ev.txCommit], Except.ok ())) := by
  by_cases h : c.nodesCreated ≠ 1 ∧ c.relationshipsCreated ≠ 1 <;>
    simp [add_migration, h]

/-- Witness for the amended C1: counters (0, 0) abort with the
integrity error; counters (1, 0) commit successfully. -/
theorem C1_amended_integrity_check_witness :
    add_migration ⟨0, 0⟩ false = ([Ev.txAbort], Except.error MigErr.ledgerIntegrity) ∧
    add_migration ⟨1, 0⟩ false = ([Ev.txCommit], Except.ok ()) :=
  ⟨(C1_amended_integrity_check ⟨0, 0⟩).2.1 (by decide),
   (C1_amended_integrity_check ⟨1, 0⟩).2.2 (by decide)⟩

theorem tupleLt_asymm : ∀ a b : List Nat, tupleLt a b = true → tupleLt b a = false
  | [], [], _ => rfl
  | [], _ :: _, _ => rfl
  | _ :: _, [], h => by simp [tupleLt] at h
  | a :: as_, b :: bs, h => by
    simp only [tupleLt] at h ⊢
    by_cases hab : a < b
    · have : ¬ b < a := by omega
      simp [hab, this]
    · by_cases hba : b < a
      · simp [hab, hba] at h
      · simp only [hab, hba, if_false] at h ⊢
        exact tupleLt_asymm as_ bs h

theorem tupleLt_both_false_iff : ∀ a b : List Nat,
    (tupleLt a b = false ∧ tupleLt b a = false) ↔ a = b
  | [], [] => by simp [tupleLt]
  | [], _ :: _ => by simp [tupleLt]
  | _ :: _, [] => by simp [tupleLt]
  | a :: as_, b :: bs => by
    simp only [tupleLt]
    by_cases hab : a < b
    · have : ¬ b < a := by omega
      simp [hab, this]
      omega
    · by_cases hba : b < a
      · simp [hab, hba]
        omega
      · have hev : a = b := by omega
        subst hev
        simp only [hab, hba, if_false, List.cons.injEq, true_and]
        exact (tupleLt_both_false_iff as_ bs).trans (by simp)

theorem strip_eq_nil_iff : ∀ l : List Nat, stripTrailingZeros l = [] ↔ ∀ x ∈ l, x = 0
  | [] => by simp [stripTrailingZeros]
  | x :: xs => by
    simp only [stripTrailingZeros]
    cases hs : stripTrailingZeros xs with
    | nil =>
      have hxs := (strip_eq_nil_iff xs).mp hs
      by_cases hx : x = 0
      · subst hx
        simp only [beq_self_eq_true, if_true, true_iff, List.mem_cons]
        intro y hy
        rcases hy with h | h
        · exact h
        · exact hxs y h
      · simp [hx]
    | cons y ys =>
      simp only [List.mem_cons]
      constructor
      · intro h
        exact absurd h (by simp)
      · intro h
        have : stripTrailingZeros xs = [] :=
          (strip_eq_nil_iff xs).mpr (fun z hz => h z (Or.inr hz))
        rw [this] at hs
        exact absurd hs.symm (by simp)

theorem allZero_tupleLt_false : ∀ (a b : List Nat), (∀ x ∈ a, x = 0) →
    (∀ x ∈ b, x = 0) → a.length = b.length → tupleLt a b = false
  | [], [], _, _, _ => rfl
  | [], _ :: _, _, _, hlen => by simp at hlen
  | _ :: _, [], _, _, hlen => by simp at hlen
  | a :: as_, b :: bs, ha, hb, hlen => by
    have ha0 : a = 0 := ha a (List.mem_cons_self a as_)
    have hb0 : b = 0 := hb b (List.mem_cons_self b bs)
    subst ha0; subst hb0
    simp only [tupleLt, Nat.lt_irrefl, if_false]
    exact allZero_tupleLt_false as_ bs (fun x hx => ha x (List.mem_cons_of_mem _ hx))
      (fun x hx => hb x (List.mem_cons_of_mem _ hx)) (by simpa using hlen)

theorem allZero_tupleLt_true : ∀ (a b : List Nat), (∀ x ∈ a, x = 0) →
    stripTrailingZeros b ≠ [] → a.length = b.length → tupleLt a b = true
  | [], [], _, hb, _ => absurd rfl hb
  | [], _ :: _, _, _, hlen => by simp at hlen
  | _ :: _, [], _, _, hlen => by simp at hlen
  | a :: as_, b :: bs, ha, hb, hlen => by
    have ha0 : a = 0 := ha a (List.mem_cons_self a as_)
    subst ha0
    simp only [stripTrailingZeros] at hb
    cases hs : stripTrailingZeros bs with
    | nil =>
      rw [hs] at hb
      have hbne : b ≠ 0 := by
        intro hb0
        subst hb0
        simp at hb
      have : 0 < b := Nat.pos_of_ne_zero hbne
      simp [tupleLt, this]
    | cons y ys =>
      by_cases hb0 : b = 0
      · subst hb0
        simp only [tupleLt, Nat.lt_irrefl, if_false]
        exact allZero_tupleLt_true as_ bs (fun x hx => ha x (List.mem_cons_of_mem _ hx))
          (by simp [hs]) (by simpa using hlen)
      · have : 0 < b := Nat.pos_of_ne_zero hb0
        simp [tupleLt, this]

theorem strip_tupleLt_eqLen : ∀ (a b : List Nat), a.length = b.length →
    tupleLt (stripTrailingZeros a) (stripTrailingZeros b) = tupleLt a b
  | [], [], _ => rfl
  | [], _ :: _, hlen => by simp at hlen
  | _ :: _, [], hlen => by simp at hlen
  | a :: as_, b :: bs, hlen => by
    have hlen' : as_.length = bs.length := by simpa using hlen
    simp only [stripTrailingZeros]
    cases hsa : stripTrailingZeros as_ with
    | nil =>
      have haz : ∀ x ∈ as_, x = 0 := (strip_eq_nil_iff as_).mp hsa
      cases hsb : stripTrailingZeros bs with
      | nil =>
        have hbz : ∀ x ∈ bs, x = 0 := (strip_eq_nil_iff bs).mp hsb
        have htails : tupleLt as_ bs = false := allZero_tupleLt_false as_ bs haz hbz hlen'
        by_cases hx : a = 0 <;> by_cases hy : b = 0
        · subst hx; subst hy
          simp [tupleLt, htails]
        · subst hx
          have hpos : 0 < b := Nat.pos_of_ne_zero hy
          simp [hy, tupleLt, hpos]
        · subst hy
          have hpos : 0 < a := Nat.pos_of_ne_zero hx
          have hneg : ¬ a < 0 := by omega
          simp [hx, tupleLt, hpos, hneg]
        · by_cases hab : a < b
          · simp [hx, hy, tupleLt, hab]
          · by_cases hba : b < a
            · simp [hx, hy, tupleLt, hab, hba]
            · simp [hx, hy, tupleLt, hab, hba, htails]
      | cons w ws =>
        have hbne : stripTrailingZeros bs ≠ [] := by simp [hsb]
        have htails : tupleLt as_ bs = true := allZero_tupleLt_true as_ bs haz hbne hlen'
        by_cases hx : a = 0
        · subst hx
          by_cases hy : b = 0
          · subst hy
            simp [tupleLt, htails]
          · have hpos : 0 < b := Nat.pos_of_ne_zero hy
            simp [tupleLt, hpos]
        · by_cases hab : a < b
          · simp [hx, tupleLt, hab]
          · by_cases hba : b < a
            · simp [hx, tupleLt, hab, hba]
            · simp [hx, tupleLt, hab, hba, htails]
    | cons z zs =>
      have hane : stripTrailingZeros as_ ≠ [] := by simp [hsa]
      cases hsb : stripTrailingZeros bs with
      | nil =>
        have hbz : ∀ x ∈ bs, x = 0 := (strip_eq_nil_iff bs).mp hsb
        have hrev : tupleLt bs as_ = true :=
          allZero_tupleLt_true bs as_ hbz hane hlen'.symm
        have htails : tupleLt as_ bs = false := by
          have := tupleLt_asymm bs as_ hrev
          exact this
        by_cases hy : b = 0
        · subst hy
          by_cases hx : a = 0
          · subst hx
            simp [tupleLt, htails]
          · have hpos : 0 < a := Nat.pos_of_ne_zero hx
            have hneg : ¬ a < 0 := by omega
            simp [tupleLt, hpos, hneg]
        · by_cases hab : a < b
          · simp [hy, tupleLt, hab]
          · by_cases hba : b < a
            · simp [hy, tupleLt, hab, hba]
            · simp [hy, tupleLt, hab, hba, htails]
      | cons w ws =>
        have ih := strip_tupleLt_eqLen as_ bs hlen'
        rw [hsa, hsb] at ih
        have hc1 : tupleLt (a :: z :: zs) (b :: w :: ws) =
            if a < b then true else if b < a then false else tupleLt (z :: zs) (w :: ws) := rfl
        have hc2 : tupleLt (a :: as_) (b :: bs) =
            if a < b then true else if b < a then false else tupleLt as_ bs := rfl
        rw [hc1, hc2, ih]

/-- Counterexample to claim C7: the comparison used by
`Migration.__lt__` treats "1" and "1.0" as equal (neither is less than
the other) even though their split integer sequences `[1]` and `[1, 0]`
differ, because `packaging.version.Version` strips trailing zero
components; the spec's shorter-then-longer ordering (`specVersionLt`)
instead makes "1" strictly smaller. -/
theorem C7_counterexample :
    versionLt "1" "1.0" = false ∧ versionLt "1.0" "1" = false ∧
    parseRelease "1" ≠ parseRelease "1.0" ∧ specVersionLt "1" "1.0" = true := by
  refine ⟨by decide, by decide, by decide, by decide⟩

/-- Claim C7 (amended): version comparison of migrations is element-wise
numeric on the integer sequences obtained by splitting the version
string, not lexicographic on the strings, and the comparison key removes
trailing zero components: two version keys compare equal exactly when
their integer sequences agree after the split and the removal of
trailing zeros (so "1" equals "1.0"); for sequences of equal length the
comparison coincides with ordinary integer tuple comparison, and
"0.20.0" orders above "0.3.0". -/
theorem C7_amended_version_comparison :
    (∀ a b : String, (parseRelease a).length = (parseRelease b).length →
      versionLt a b = tupleLt (parseRelease a) (parseRelease b)) ∧
    (∀ a b : String,
      (versionLt a b = false ∧ versionLt b a = false) ↔
        stripTrailingZeros (parseRelease a) = stripTrailingZeros (parseRelease b)) ∧
    versionLt "0.3.0" "0.20.0" = true ∧ versionLt "0.20.0" "0.3.0" = false := by
  refine ⟨?_, ?_, by decide, by decide⟩
  · intro a b hlen
    exact strip_tupleLt_eqLen (parseRelease a) (parseRelease b) hlen
  · intro a b
    exact tupleLt_both_false_iff _ _

/-- Witness for the amended C7 at concrete version strings. -/
theorem C7_amended_version_comparison_witness :
    versionLt "1.1" "1.2" = tupleLt (parseRelease "1.1") (parseRelease "1.2") ∧
    ((versionLt "1" "1.0" = false ∧ versionLt "1.0" "1" = false) ↔
      stripTrailingZeros (parseRelease "1") = stripTrailingZeros (parseRelease "1.0")) :=
  ⟨C7_amended_version_comparison.1 "1.1" "1.2" (by decide),
   C7_amended_version_comparison.2.1 "1" "1.0"⟩

theorem crc32_nil (v : Nat) : crc32 [] v = v := by
  simp only [crc32, List.foldl_nil]
  exact Nat.xor_cancel_right 0xFFFFFFFF v

theorem crc32_append (a b : List Nat) (v : Nat) :
    crc32 (a ++ b) v = crc32 b (crc32 a v) := by
  simp only [crc32, List.foldl_append]
  congr 1
  congr 1
  exact (Nat.xor_cancel_right 0xFFFFFFFF _).symm

theorem crcFoldFrom_eq (ss : List String) (c : Nat) :
    ss.foldl
      (fun acc st =>
        match acc with
        | some cPrev =>
          if cPrev ≠ 0 then some (crc32 (strBytes st) cPrev)
          else some (crc32 (strBytes st) 0)
        | none => some (crc32 (strBytes st) 0))
      (some c) =
    some (crc32 (ss.flatMap strBytes) c) := by
  induction ss generalizing c with
  | nil => simp [crc32_nil]
  | cons s rest ih =>
    have hinit : (if c ≠ 0 then some (crc32 (strBytes s) c)
        else some (crc32 (strBytes s) 0)) = some (crc32 (strBytes s) c) := by
      by_cases h : c = 0
      · subst h
        simp
      · simp [h]
    simp only [List.foldl_cons]
    rw [hinit, ih, List.flatMap_cons, crc32_append]

theorem crcFold_eq_concat (ss : List String) (hne : ss ≠ []) :
    crcFold ss = some (crc32 (ss.flatMap strBytes) 0) := by
  cases ss with
  | nil => exact absurd rfl hne
  | cons s rest =>
    simp only [crcFold, List.foldl_cons, List.flatMap_cons]
    rw [crcFoldFrom_eq rest (crc32 (strBytes s) 0), crc32_append]

/-- Counterexample to claim C8: the scripts `AB;ABAB;` and `ABAB;AB;`
hold the same two distinct statements in swapped order, yet their
checksums coincide — the chained CRC32 accumulation reduces to the CRC32
of the concatenation of the statements, and `"AB" ++ "ABAB"` equals
`"ABAB" ++ "AB"`. -/
theorem C8_counterexample :
    cypherStatements "AB;ABAB;" = ["AB", "ABAB"] ∧
    cypherStatements "ABAB;AB;" = ["ABAB", "AB"] ∧
    cypherChecksum "AB;ABAB;" = cypherChecksum "ABAB;AB;" ∧
    cypherChecksum "AB;ABAB;" ≠ none := by
  refine ⟨by decide, by decide, by decide, by decide⟩

/-- Claim C8 (amended): the checksum of a `CypherMigration` is a
streaming CRC32 accumulation over the whitespace-trimmed non-empty
statement sequence that depends exactly on the concatenation of those
statements: identical statement sequences in identical order always
yield identical checksums, and swapping two distinct statements changes
the checksum only when it changes the concatenated byte sequence —
swapping `A` and `B` changes it, while swapping `AB` and `ABAB`
does not. -/
theorem C8_amended_checksum_concat :
    (∀ q1 q2 : String, cypherStatements q1 = cypherStatements q2 →
      cypherChecksum q1 = cypherChecksum q2) ∧
    (∀ q1 q2 : String,
      (cypherStatements q1).flatMap strBytes = (cypherStatements q2).flatMap strBytes →
      cypherStatements q1 ≠ [] → cypherStatements q2 ≠ [] →
      cypherChecksum q1 = cypherChecksum q2) ∧
    cypherChecksum "A;B;" ≠ cypherChecksum "B;A;" := by
  refine ⟨?_, ?_, by decide⟩
  · intro q1 q2 h
    simp only [cypherChecksum, h]
  · intro q1 q2 hbytes h1 h2
    simp only [cypherChecksum, checksumOf,
      crcFold_eq_concat (cypherStatements q1) h1,
      crcFold_eq_concat (cypherStatements q2) h2, hbytes]

/-- Witness for the amended C8 at the swapped-script pair. -/
theorem C8_amended_checksum_concat_witness :
    cypherChecksum "AB;ABAB;" = cypherChecksum "ABAB;AB;" :=
  C8_amended_checksum_concat.2.1 "AB;ABAB;" "ABAB;AB;" (by decide) (by decide) (by decide)

/-- Claim C10: for a query with no UP/DOWN section markers, the parsed
forward statement list is the semicolon-split segments of the query with
the last segment dropped (the `statements` attribute then trims and
filters them); consequently a final statement not terminated by ";" is
silently excluded from the executed statements and from the checksum, as
the concrete script `CREATE (a);CREATE (b)` shows. -/
theorem C10_no_marker_parse :
    (∀ q : String, pyContains q upMarker = false → pyContains q downMarker = false →
      parse_statements q = ((pySplit q ";").dropLast, []) ∧
      cypherStatements q =
        (((pySplit q ";").dropLast).map pyStrip).filter (fun st => !st.isEmpty)) ∧
    cypherStatements "CREATE (a);CREATE (b)" = ["CREATE (a)"] ∧
    cypherChecksum "CREATE (a);CREATE (b)" = cypherChecksum "CREATE (a);" := by
  refine ⟨?_, by decide, by decide⟩
  intro q hup hdown
  have h : parse_statements q = ((pySplit q ";").dropLast, []) := by
    simp [parse_statements, hup, hdown]
  exact ⟨h, by simp [cypherStatements, h, normalizeStatements]⟩

/-- Witness for C10 at a concrete marker-free script. -/
theorem C10_no_marker_parse_witness :
    parse_statements "CREATE (a);CREATE (b)" =
      ((pySplit "CREATE (a);CREATE (b)" ";").dropLast, []) :=
  (C10_no_marker_parse.1 "CREATE (a);CREATE (b)" (by decide) (by decide)).1
